import Mathlib

/-!
Shallow embedding of the icloudfetch sync engine (src/run.py, with
src/run_year_month.py and src/icloud_downloader.py as near-duplicates).

Modelling choices:
* File content is a list of opaque chunks (`Nat`), matching the chunked
  download/hash loop; a byte-for-byte model is not needed because the code
  only ever compares whole contents through the digest.
* The MD5 digest is modelled as an injective digest (the content itself);
  hash equality then coincides with content equality, which is the
  idealisation the code relies on.
* The filesystem is an association list from path to file data
  (content, mtime, atime).  `os.utime`, `os.remove`, `os.rename`,
  `os.path.exists` and `open(..., 'wb')` are modelled as pure updates.
  Wall-clock time is not modelled: a fresh write gets mtime = atime = 0,
  and the engine immediately overwrites these via `reset_file_timestamp`
  on every success path.
* The flaky remote (pyicloud) is modelled by two fields on a photo:
  `transientFailures` (how many initial attempts raise a transient error
  inside the download) and `failChunks` (how many chunks such a failing
  download writes before raising), matching the observable effect of an
  exception inside `download_file_with_progress`'s write loop.
* Python datetimes are modelled as a wall-clock value in seconds plus an
  optional utc offset (`none` = naive), enough to express
  `pytz.UTC.localize`, `astimezone` and `.timestamp()`.
-/

/-- File content: a list of opaque chunks. -/
abbrev Content := List Nat

/-- A python `datetime`: wall-clock seconds plus an optional UTC offset
in seconds (`none` models a naive datetime). -/
structure PyDatetime where
  wall : Int
  tzOffset : Option Int
deriving DecidableEq

/-- pytz.UTC.localize: attach the UTC timezone to a naive datetime without
changing the wall-clock reading. -/
def pytzUtcLocalize (t : PyDatetime) : PyDatetime :=
  { t with tzOffset := some 0 }

/-- datetime.timestamp() on an aware datetime: the UTC instant. -/
def datetimeTimestamp (t : PyDatetime) : Int :=
  t.wall - t.tzOffset.getD 0

/-- datetime.astimezone(tz): same instant re-expressed at offset `off`. -/
def astimezone (t : PyDatetime) (off : Int) : PyDatetime :=
  { wall := t.wall - t.tzOffset.getD 0 + off, tzOffset := some off }

/-- The instant a declared remote timestamp denotes, with a naive value
read as UTC (this is what `reset_file_timestamp` ends up applying). -/
def remoteInstant (t : PyDatetime) : Int :=
  t.wall - t.tzOffset.getD 0

/-- A file on disk: content plus modification and access times. -/
structure FileData where
  content : Content
  mtime : Int
  atime : Int
deriving DecidableEq

/-- The local filesystem: an association list from path to file data. -/
abbrev FS := List (String × FileData)

/-- Look a path up in the filesystem. -/
def fsLookup (fs : FS) (p : String) : Option FileData :=
  match fs with
  | [] => none
  | (q, f) :: rest => if q = p then some f else fsLookup rest p

/-- Insert or overwrite the entry at a path. -/
def fsSet (fs : FS) (p : String) (f : FileData) : FS :=
  match fs with
  | [] => [(p, f)]
  | (q, g) :: rest => if q = p then (p, f) :: rest else (q, g) :: fsSet rest p f

/-- os.remove: delete the entry at a path. -/
def osRemove (fs : FS) (p : String) : FS :=
  match fs with
  | [] => []
  | (q, g) :: rest => if q = p then osRemove rest p else (q, g) :: osRemove rest p

/-- os.rename(src, dst): move the file at `src` over `dst` in one step. -/
def osRename (fs : FS) (src dst : String) : FS :=
  match fsLookup fs src with
  | some f => fsSet (osRemove fs src) dst f
  | none => fs

/-- os.utime(p, (atime, mtime)): set both times; on a missing path the
python call raises, which `reset_file_timestamp` swallows, so the model
leaves the filesystem unchanged. -/
def osUtime (fs : FS) (p : String) (newAtime newMtime : Int) : FS :=
  match fsLookup fs p with
  | some f => fsSet fs p { f with atime := newAtime, mtime := newMtime }
  | none => fs

/-- os.path.exists. -/
def pathExists (fs : FS) (p : String) : Bool :=
  (fsLookup fs p).isSome

/-- The byte content currently stored at a path, if any. -/
def contentAt (fs : FS) (p : String) : Option Content :=
  (fsLookup fs p).map FileData.content

/-- MD5 over a chunk stream, modelled as an injective digest: digest
equality coincides with content equality. -/
def md5Digest (c : Content) : Content := c

/-- calculate_file_hash (src/run.py:17): digest of the file at a path
(read chunk by chunk; a missing file would raise, and every call site
guards with an existence check first). -/
def calculate_file_hash (fs : FS) (p : String) : Content :=
  md5Digest ((contentAt fs p).getD [])

/-- download_file_with_progress (src/run.py:25): open the target with
'wb' (create/truncate), stream all chunks into it, and return the digest
of the downloaded bytes. -/
def download_file_with_progress (fs : FS) (path : String) (c : Content) : FS × Content :=
  (fsSet fs path ⟨c, 0, 0⟩, md5Digest c)

/-- A download attempt that raises a transient error part-way: 'wb' has
already created/truncated the target and `k` chunks were written before
the exception escaped `download_file_with_progress`. -/
def failedDownload (fs : FS) (path : String) (c : Content) (k : Nat) : FS :=
  fsSet fs path ⟨c.take k, 0, 0⟩

/-- reset_file_timestamp (src/run.py:40): make the timestamp aware
(naive is localized to UTC), convert it to the configured timezone
(given here by its UTC offset in seconds) and set both access and
modification times to the resulting Unix timestamp.  The Darwin/Windows
creation-time branch is outside the modelled filesystem. -/
def reset_file_timestamp (fs : FS) (path : String) (ts : PyDatetime) (tzOff : Int) : FS :=
  let ts1 := if ts.tzOffset.isNone then pytzUtcLocalize ts else ts
  let localTs := astimezone ts1 tzOff
  let modTime := datetimeTimestamp localTs
  osUtime fs path modTime modTime

/-- Rate limiting constant (src/run.py:72). -/
def RATE_LIMIT : Nat := 100

/-- Rate limiting constant (src/run.py:73). -/
def TIME_WINDOW : Nat := 0

/-- Retry constant (src/run.py:76). -/
def MAX_RETRIES : Nat := 5

/-- Retry constant (src/run.py:77). -/
def INITIAL_WAIT : Nat := 1

/-- Retry constant (src/run.py:78). -/
def MAX_WAIT : Nat := 60

/-- exponential_backoff (src/run.py:128). -/
def exponential_backoff (attempt : Nat) : Nat :=
  min (INITIAL_WAIT * 2 ^ attempt) MAX_WAIT

/-- A remote item as listed by the Remote Item Source.  The last two
fields model the flaky remote: the first `transientFailures` processing
attempts raise a transient error inside the download, after writing
`failChunks` chunks to the download target. -/
structure Photo where
  filename : String
  content : Content
  added_date : PyDatetime
  transientFailures : Nat
  failChunks : Nat
deriving DecidableEq

/-- The flat download directory (src/run.py:153). -/
def download_directory : String := "downloaded_files"

/-- os.path.join(download_directory, photo.filename) (src/run.py:185). -/
def finalPath (p : Photo) : String :=
  download_directory ++ "/" ++ p.filename

/-- The staging path photo_path + ".temp" (src/run.py:193). -/
def tempPath (p : Photo) : String :=
  finalPath p ++ ".temp"

/-- Engine state threaded through the main loop: the filesystem, the
persisted cursor (contents of last_downloaded.txt, `none` when the file
is absent) and the rate-limit counter `requests_made`. -/
structure EngineState where
  fs : FS
  cursor : Option String
  requests : Nat
deriving DecidableEq

/-- Result of a successful attempt: the new engine state plus the
rate-limit pauses performed (src/run.py:220-224). -/
structure AttemptOk where
  state : EngineState
  rateSleeps : List Nat
deriving DecidableEq

/-- The shared success tail of the per-item loop (src/run.py:211-226):
reset the file's timestamps to the declared remote timestamp, save the
cursor, bump the rate-limit counter and pause when it reaches the
limit.  `rateLimit`/`timeWindow` are the module constants RATE_LIMIT and
TIME_WINDOW, passed explicitly because the spec calls them
configurable. -/
def commitTail (st : EngineState) (photo : Photo) (rateLimit timeWindow : Nat) : AttemptOk :=
  let fs1 := reset_file_timestamp st.fs (finalPath photo) photo.added_date 0
  let req1 := st.requests + 1
  if req1 >= rateLimit then
    ⟨⟨fs1, some photo.filename, 0⟩, if timeWindow > 0 then [timeWindow] else []⟩
  else
    ⟨⟨fs1, some photo.filename, req1⟩, []⟩

/-- One attempt of the per-item body (src/run.py:183-226).  `failing`
says whether this attempt's download raises a transient error; the
error value is the filesystem after the partially written download
target is left behind (nothing in the except branch cleans it up). -/
def attemptItem (st : EngineState) (photo : Photo) (failing : Bool)
    (rateLimit timeWindow : Nat) : Except FS AttemptOk :=
  let photoPath := finalPath photo
  if pathExists st.fs photoPath then
    let localFileHash := calculate_file_hash st.fs photoPath
    let temp := tempPath photo
    if failing then
      Except.error (failedDownload st.fs temp photo.content photo.failChunks)
    else
      let dl := download_file_with_progress st.fs temp photo.content
      if localFileHash = dl.2 then
        let fs2 := reset_file_timestamp dl.1 photoPath photo.added_date 0
        let fs3 := osRemove fs2 temp
        Except.ok ⟨⟨fs3, st.cursor, st.requests⟩, []⟩
      else
        let fs2 := osRename dl.1 temp photoPath
        Except.ok (commitTail ⟨fs2, st.cursor, st.requests⟩ photo rateLimit timeWindow)
  else
    if failing then
      Except.error (failedDownload st.fs photoPath photo.content photo.failChunks)
    else
      let dl := download_file_with_progress st.fs photoPath photo.content
      Except.ok (commitTail ⟨dl.1, st.cursor, st.requests⟩ photo rateLimit timeWindow)

/-- Observable outcome of processing one item through the retry loop:
the final state, the backoff sleeps performed between attempts, the
rate-limit pauses, and how many attempts were made. -/
structure ItemResult where
  state : EngineState
  backoffSleeps : List Nat
  rateSleeps : List Nat
  attempts : Nat
deriving DecidableEq

/-- The retry loop `while attempt < MAX_RETRIES` (src/run.py:182-237),
written with explicit fuel `MAX_RETRIES - attempt` so the while guard
`attempt < MAX_RETRIES` becomes `fuel > 0`; the two are kept in sync at
every call site.  A failed attempt increments `attempt`, and if the new
value is still below MAX_RETRIES the loop sleeps
`exponential_backoff(attempt)` and retries; otherwise the item is
skipped.  An attempt numbered `attempt` fails exactly when
`attempt < photo.transientFailures`. -/
def retryLoop (photo : Photo) (rateLimit timeWindow : Nat) :
    EngineState → Nat → Nat → ItemResult
  | st, _, 0 => ⟨st, [], [], 0⟩
  | st, attempt, fuel + 1 =>
    match attemptItem st photo (decide (attempt < photo.transientFailures)) rateLimit timeWindow with
    | Except.ok r => ⟨r.state, [], r.rateSleeps, 1⟩
    | Except.error fs1 =>
      if fuel > 0 then
        let w := exponential_backoff (attempt + 1)
        let r := retryLoop photo rateLimit timeWindow ⟨fs1, st.cursor, st.requests⟩ (attempt + 1) fuel
        ⟨r.state, w :: r.backoffSleeps, r.rateSleeps, r.attempts + 1⟩
      else
        ⟨⟨fs1, st.cursor, st.requests⟩, [], [], 1⟩

/-- Process one item: the retry loop entered with attempt = 0. -/
def processItem (st : EngineState) (photo : Photo) (rateLimit timeWindow : Nat) : ItemResult :=
  retryLoop photo rateLimit timeWindow st 0 MAX_RETRIES

/-- The main loop over the listing (src/run.py:175-237): while `skip`
is set, items are only compared against the stored cursor value and
skipped (the matching item itself included); afterwards every item is
processed.  Returns the final state and the filenames of the items that
were actually processed (entered the retry loop). -/
def syncLoop (last : Option String) (st : EngineState) (skip : Bool) :
    List Photo → EngineState × List String
  | [] => (st, [])
  | photo :: rest =>
    if skip then
      if last = some photo.filename then syncLoop last st false rest
      else syncLoop last st true rest
    else
      let r := processItem st photo RATE_LIMIT TIME_WINDOW
      let rec1 := syncLoop last r.state false rest
      (rec1.1, photo.filename :: rec1.2)

/-- One engine run (src/run.py:171-237): load the cursor, set the skip
flag when it is present, and run the main loop. -/
def runEngine (st : EngineState) (photos : List Photo) : EngineState × List String :=
  syncLoop st.cursor st st.cursor.isSome photos

/-- The part of a listing strictly after the first item whose filename
matches `s` (empty when nothing matches): a derived characterisation of
what the skip phase of the main loop leaves to process. -/
def dropThroughMatch (s : String) : List Photo → List Photo
  | [] => []
  | x :: rest => if x.filename = s then rest else dropThroughMatch s rest

/-- The sub-listing a run actually processes, as determined by the
stored cursor: everything, or everything after the first match. -/
def afterCursor : Option String → List Photo → List Photo
  | none, l => l
  | some s, l => dropThroughMatch s l

/-- Intermediate filesystem states while `download_file_with_progress`
runs against `path`: after 'wb' creates/truncates the target and after
each chunk is written. -/
def downloadStates (fs : FS) (path : String) (c : Content) : List FS :=
  (List.range (c.length + 1)).map fun k => fsSet fs path ⟨c.take k, 0, 0⟩

/-- All intermediate engine states during one non-failing attempt at a
photo, at chunk granularity: an external interrupt (KeyboardInterrupt)
can stop the engine at any of these points.  Mirrors `attemptItem` on
its success paths, exposing every state the filesystem and cursor pass
through (src/run.py:183-226). -/
def attemptStates (st : EngineState) (photo : Photo) : List EngineState :=
  let photoPath := finalPath photo
  if pathExists st.fs photoPath then
    let localFileHash := calculate_file_hash st.fs photoPath
    let temp := tempPath photo
    let dl := (downloadStates st.fs temp photo.content).map fun f => { st with fs := f }
    let fs1 := fsSet st.fs temp ⟨photo.content, 0, 0⟩
    if localFileHash = md5Digest photo.content then
      let fs2 := reset_file_timestamp fs1 photoPath photo.added_date 0
      let fs3 := osRemove fs2 temp
      st :: dl ++ [{ st with fs := fs2 }, { st with fs := fs3 }]
    else
      let fs2 := osRename fs1 temp photoPath
      let fs3 := reset_file_timestamp fs2 photoPath photo.added_date 0
      st :: dl ++ [{ st with fs := fs2 }, { st with fs := fs3 },
        (commitTail ⟨fs2, st.cursor, st.requests⟩ photo RATE_LIMIT TIME_WINDOW).state]
  else
    let dl := (downloadStates st.fs photoPath photo.content).map fun f => { st with fs := f }
    let fs1 := fsSet st.fs photoPath ⟨photo.content, 0, 0⟩
    let fs2 := reset_file_timestamp fs1 photoPath photo.added_date 0
    st :: dl ++ [{ st with fs := fs2 },
      (commitTail ⟨fs1, st.cursor, st.requests⟩ photo RATE_LIMIT TIME_WINDOW).state]

theorem fsLookup_fsSet_self (fs : FS) (p : String) (f : FileData) :
    fsLookup (fsSet fs p f) p = some f := by
  induction fs with
  | nil => simp [fsSet, fsLookup]
  | cons e rest ih =>
    obtain ⟨q, g⟩ := e
    by_cases h : q = p <;> simp [fsSet, fsLookup, h, ih]

theorem fsLookup_fsSet_ne (fs : FS) (p q : String) (f : FileData) (h : q ≠ p) :
    fsLookup (fsSet fs p f) q = fsLookup fs q := by
  induction fs with
  | nil => simp [fsSet, fsLookup, Ne.symm h]
  | cons e rest ih =>
    obtain ⟨r, g⟩ := e
    unfold fsSet
    by_cases hr : r = p
    · subst hr
      rw [if_pos rfl]
      simp [fsLookup, Ne.symm h]
    · rw [if_neg hr]
      by_cases hq : r = q
      · simp [fsLookup, hq]
      · simp [fsLookup, hq, ih]

theorem fsLookup_osRemove_self (fs : FS) (p : String) :
    fsLookup (osRemove fs p) p = none := by
  induction fs with
  | nil => simp [osRemove, fsLookup]
  | cons e rest ih =>
    obtain ⟨q, g⟩ := e
    by_cases h : q = p <;> simp [osRemove, fsLookup, h, ih]

theorem fsLookup_osRemove_ne (fs : FS) (p q : String) (h : q ≠ p) :
    fsLookup (osRemove fs p) q = fsLookup fs q := by
  induction fs with
  | nil => simp [osRemove]
  | cons e rest ih =>
    obtain ⟨r, g⟩ := e
    unfold osRemove
    by_cases hr : r = p
    · subst hr
      rw [if_pos rfl, ih]
      simp [fsLookup, Ne.symm h]
    · rw [if_neg hr]
      by_cases hq : r = q
      · simp [fsLookup, hq]
      · simp [fsLookup, hq, ih]

theorem fsLookup_osUtime_ne (fs : FS) (p q : String) (a m : Int) (h : q ≠ p) :
    fsLookup (osUtime fs p a m) q = fsLookup fs q := by
  unfold osUtime
  cases fsLookup fs p with
  | none => rfl
  | some f => exact fsLookup_fsSet_ne fs p q _ h

theorem fsLookup_osUtime_self (fs : FS) (p : String) (a m : Int) (f : FileData)
    (h : fsLookup fs p = some f) :
    fsLookup (osUtime fs p a m) p = some { f with atime := a, mtime := m } := by
  unfold osUtime
  rw [h]
  exact fsLookup_fsSet_self fs p _

theorem osUtime_of_missing (fs : FS) (p : String) (a m : Int)
    (h : fsLookup fs p = none) : osUtime fs p a m = fs := by
  unfold osUtime
  rw [h]

theorem fsLookup_osRename_other (fs : FS) (src dst q : String)
    (h1 : q ≠ src) (h2 : q ≠ dst) :
    fsLookup (osRename fs src dst) q = fsLookup fs q := by
  unfold osRename
  cases fsLookup fs src with
  | none => rfl
  | some f => rw [fsLookup_fsSet_ne _ _ _ _ h2, fsLookup_osRemove_ne _ _ _ h1]

theorem fsLookup_osRename_dst (fs : FS) (src dst : String) (f : FileData)
    (h : fsLookup fs src = some f) :
    fsLookup (osRename fs src dst) dst = some f := by
  unfold osRename
  rw [h]
  exact fsLookup_fsSet_self _ _ _

theorem fsLookup_osRename_src (fs : FS) (src dst : String) (f : FileData)
    (h : fsLookup fs src = some f) (hne : src ≠ dst) :
    fsLookup (osRename fs src dst) src = none := by
  unfold osRename
  rw [h, fsLookup_fsSet_ne _ _ _ _ hne, fsLookup_osRemove_self]

theorem reset_file_timestamp_eq_utime (fs : FS) (path : String) (ts : PyDatetime) (tzOff : Int) :
    reset_file_timestamp fs path ts tzOff
      = osUtime fs path (remoteInstant ts) (remoteInstant ts) := by
  unfold reset_file_timestamp
  cases h : ts.tzOffset with
  | none =>
    simp [h, pytzUtcLocalize, astimezone, datetimeTimestamp, remoteInstant]
  | some off =>
    simp [h, astimezone, datetimeTimestamp, remoteInstant]

theorem contentAt_reset_file_timestamp (fs : FS) (path q : String) (ts : PyDatetime) (tzOff : Int) :
    contentAt (reset_file_timestamp fs path ts tzOff) q = contentAt fs q := by
  rw [reset_file_timestamp_eq_utime]
  by_cases h : q = path
  · subst h
    unfold osUtime
    cases hf : fsLookup fs q with
    | none => rfl
    | some f => simp [contentAt, fsLookup_fsSet_self, hf]
  · simp [contentAt, fsLookup_osUtime_ne _ _ _ _ _ h]

theorem stringAppendCancelLeft {a b c : String} (h : a ++ b = a ++ c) : b = c := by
  have hd := congrArg String.data h
  simp only [String.data_append] at hd
  exact String.ext (List.append_cancel_left hd)

theorem finalPath_inj {p q : Photo} (h : finalPath p = finalPath q) :
    p.filename = q.filename := by
  unfold finalPath at h
  exact stringAppendCancelLeft h

theorem finalPath_ne {p q : Photo} (h : p.filename ≠ q.filename) :
    finalPath p ≠ finalPath q :=
  fun hh => h (finalPath_inj hh)

theorem string_ne_append_temp (s : String) : s ≠ s ++ ".temp" := by
  intro h
  have hd := congrArg (fun t => t.data.length) h
  simp only [String.data_append, List.length_append] at hd
  rw [show (".temp" : String).data.length = 5 from rfl] at hd
  omega

theorem finalPath_ne_tempPath_self (p : Photo) : finalPath p ≠ tempPath p :=
  string_ne_append_temp (finalPath p)

theorem finalPath_ne_tempPath {p q : Photo} (h : p.filename ≠ q.filename ++ ".temp") :
    finalPath p ≠ tempPath q := by
  intro hh
  apply h
  unfold tempPath finalPath at hh
  have hd := congrArg String.data hh
  simp only [String.data_append, List.append_assoc] at hd
  have hd2 := List.append_cancel_left hd
  apply String.ext
  simpa [String.data_append] using hd2

theorem tempPath_inj {p q : Photo} (h : tempPath p = tempPath q) :
    p.filename = q.filename := by
  unfold tempPath at h
  have hd := congrArg String.data h
  simp only [String.data_append] at hd
  have hd2 := List.append_cancel_right hd
  exact finalPath_inj (String.ext hd2)

theorem tempPath_ne {p q : Photo} (h : p.filename ≠ q.filename) :
    tempPath p ≠ tempPath q :=
  fun hh => h (tempPath_inj hh)

theorem attemptItem_fail (st : EngineState) (photo : Photo) (rl tw : Nat) :
    attemptItem st photo true rl tw
      = Except.error (failedDownload st.fs
          (if pathExists st.fs (finalPath photo) then tempPath photo else finalPath photo)
          photo.content photo.failChunks) := by
  unfold attemptItem
  by_cases h : pathExists st.fs (finalPath photo) <;> simp [h]

theorem processItem_of_first_ok (st : EngineState) (photo : Photo) (rl tw : Nat)
    (r : AttemptOk) (h0 : photo.transientFailures = 0)
    (hr : attemptItem st photo false rl tw = Except.ok r) :
    processItem st photo rl tw = ⟨r.state, [], r.rateSleeps, 1⟩ := by
  have hd : decide (0 < photo.transientFailures) = false := by
    simp [h0]
  unfold processItem MAX_RETRIES
  unfold retryLoop
  rw [hd, hr]

theorem backoff_range_shift (attempt f1 : Nat) :
    exponential_backoff (attempt + 1)
        :: (List.range f1).map (fun i => exponential_backoff (attempt + 1 + 1 + i))
      = (List.range (f1 + 1)).map (fun i => exponential_backoff (attempt + 1 + i)) := by
  rw [List.range_succ_eq_map, List.map_cons, List.map_map]
  have h1 : exponential_backoff (attempt + 1) = exponential_backoff (attempt + 1 + 0) := by
    congr 1
  have h2 : (List.range f1).map (fun i => exponential_backoff (attempt + 1 + 1 + i))
      = (List.range f1).map ((fun i => exponential_backoff (attempt + 1 + i)) ∘ Nat.succ) := by
    apply List.map_congr_left
    intro a _
    simp only [Function.comp_apply]
    congr 1
    omega
  rw [h1, h2]

theorem retryLoop_exhaust (photo : Photo) (rl tw : Nat) :
    ∀ fuel attempt st, 0 < fuel → attempt + fuel ≤ photo.transientFailures →
      ∃ fs1, retryLoop photo rl tw st attempt fuel
        = ⟨⟨fs1, st.cursor, st.requests⟩,
            (List.range (fuel - 1)).map (fun i => exponential_backoff (attempt + 1 + i)),
            [], fuel⟩ := by
  intro fuel
  induction fuel with
  | zero => intro attempt st h; exact absurd h (Nat.lt_irrefl 0)
  | succ f ih =>
    intro attempt st _ hle
    have hfail : decide (attempt < photo.transientFailures) = true := by
      simp
      omega
    rw [show f + 1 - 1 = f from rfl]
    unfold retryLoop
    simp only [hfail, attemptItem_fail]
    cases f with
    | zero =>
      refine ⟨failedDownload st.fs
        (if pathExists st.fs (finalPath photo) then tempPath photo else finalPath photo)
        photo.content photo.failChunks, ?_⟩
      simp
    | succ f1 =>
      obtain ⟨fs1, hrec⟩ := ih (attempt + 1)
        ⟨failedDownload st.fs
          (if pathExists st.fs (finalPath photo) then tempPath photo else finalPath photo)
          photo.content photo.failChunks, st.cursor, st.requests⟩
        (Nat.succ_pos f1) (by omega)
      simp only [Nat.succ_sub_one] at hrec
      refine ⟨fs1, ?_⟩
      rw [if_pos (Nat.succ_pos f1)]
      simp only [hrec]
      rw [backoff_range_shift]

theorem commitTail_fs (st : EngineState) (photo : Photo) (rl tw : Nat) :
    (commitTail st photo rl tw).state.fs
      = reset_file_timestamp st.fs (finalPath photo) photo.added_date 0 := by
  unfold commitTail
  by_cases h : st.requests + 1 >= rl <;> simp [h]

theorem commitTail_cursor (st : EngineState) (photo : Photo) (rl tw : Nat) :
    (commitTail st photo rl tw).state.cursor = some photo.filename := by
  unfold commitTail
  by_cases h : st.requests + 1 >= rl <;> simp [h]

theorem commitTail_requests (st : EngineState) (photo : Photo) (rl tw : Nat) :
    (commitTail st photo rl tw).state.requests
      = (if st.requests + 1 >= rl then 0 else st.requests + 1) := by
  unfold commitTail
  by_cases h : st.requests + 1 >= rl <;> simp [h]

theorem commitTail_rateSleeps (st : EngineState) (photo : Photo) (rl tw : Nat) :
    (commitTail st photo rl tw).rateSleeps
      = (if st.requests + 1 >= rl ∧ tw > 0 then [tw] else []) := by
  unfold commitTail
  by_cases h : st.requests + 1 >= rl
  · by_cases ht : tw > 0 <;> simp [h, ht]
  · simp [h]

theorem attemptItem_equal (st : EngineState) (photo : Photo) (rl tw : Nat) (f0 : FileData)
    (hex : fsLookup st.fs (finalPath photo) = some f0)
    (heq : f0.content = photo.content) :
    attemptItem st photo false rl tw
      = Except.ok ⟨⟨osRemove
          (reset_file_timestamp (fsSet st.fs (tempPath photo) ⟨photo.content, 0, 0⟩)
            (finalPath photo) photo.added_date 0)
          (tempPath photo), st.cursor, st.requests⟩, []⟩ := by
  unfold attemptItem
  simp [pathExists, hex, calculate_file_hash, contentAt, md5Digest,
    download_file_with_progress, heq]

theorem attemptItem_differs (st : EngineState) (photo : Photo) (rl tw : Nat) (f0 : FileData)
    (hex : fsLookup st.fs (finalPath photo) = some f0)
    (hne : f0.content ≠ photo.content) :
    attemptItem st photo false rl tw
      = Except.ok (commitTail
          ⟨osRename (fsSet st.fs (tempPath photo) ⟨photo.content, 0, 0⟩)
            (tempPath photo) (finalPath photo), st.cursor, st.requests⟩
          photo rl tw) := by
  unfold attemptItem
  simp [pathExists, hex, calculate_file_hash, contentAt, md5Digest,
    download_file_with_progress, hne]

theorem attemptItem_fresh (st : EngineState) (photo : Photo) (rl tw : Nat)
    (hex : fsLookup st.fs (finalPath photo) = none) :
    attemptItem st photo false rl tw
      = Except.ok (commitTail
          ⟨fsSet st.fs (finalPath photo) ⟨photo.content, 0, 0⟩, st.cursor, st.requests⟩
          photo rl tw) := by
  unfold attemptItem
  simp [pathExists, hex, download_file_with_progress]

/-- C10: `reset_file_timestamp` interprets a timestamp without timezone
information as UTC, converts an aware timestamp directly (the timezone
conversion preserves the denoted instant), and sets the file's access
time and modification time to that same instant. -/
theorem c10_reset_timestamp (fs : FS) (path : String) (ts : PyDatetime) (tzOff : Int) :
    reset_file_timestamp fs path ts tzOff
        = osUtime fs path (remoteInstant ts) (remoteInstant ts)
    ∧ (ts.tzOffset = none → remoteInstant ts = ts.wall)
    ∧ (∀ f, fsLookup fs path = some f →
        fsLookup (reset_file_timestamp fs path ts tzOff) path
          = some ⟨f.content, remoteInstant ts, remoteInstant ts⟩) := by
  refine ⟨reset_file_timestamp_eq_utime fs path ts tzOff, ?_, ?_⟩
  · intro h
    simp [remoteInstant, h]
  · intro f hf
    rw [reset_file_timestamp_eq_utime]
    rw [fsLookup_osUtime_self fs path _ _ f hf]

/-- C10 witness: a naive timestamp 100 applied at offset 3600 sets both
times to 100 (read as UTC). -/
theorem c10_witness :
    (⟨100, none⟩ : PyDatetime).tzOffset = none
    ∧ fsLookup [("a", (⟨[1], 5, 6⟩ : FileData))] "a" = some ⟨[1], 5, 6⟩
    ∧ remoteInstant ⟨100, none⟩ = 100
    ∧ fsLookup (reset_file_timestamp [("a", ⟨[1], 5, 6⟩)] "a" ⟨100, none⟩ 3600) "a"
        = some ⟨[1], 100, 100⟩ := by
  refine ⟨rfl, rfl, (c10_reset_timestamp [("a", ⟨[1], 5, 6⟩)] "a" ⟨100, none⟩ 3600).2.1 rfl, ?_⟩
  exact (c10_reset_timestamp [("a", ⟨[1], 5, 6⟩)] "a" ⟨100, none⟩ 3600).2.2 ⟨[1], 5, 6⟩ rfl

/-- C1 (amended): for an item whose destination already holds a file with
the same digest as the downloaded content, a successful pass discards the
staged download, rewrites the file's timestamps to the declared remote
timestamp, leaves the byte content unchanged — and leaves the Resume
Cursor unchanged (it is NOT advanced to the item's identifier, because
the equal branch breaks out of the loop before save_last_downloaded). -/
theorem c1_equal_pass (st : EngineState) (photo : Photo) (rl tw : Nat) (f0 : FileData)
    (hex : fsLookup st.fs (finalPath photo) = some f0)
    (heq : f0.content = photo.content)
    (h0 : photo.transientFailures = 0) :
    fsLookup (processItem st photo rl tw).state.fs (finalPath photo)
      = some ⟨f0.content, remoteInstant photo.added_date, remoteInstant photo.added_date⟩
    ∧ fsLookup (processItem st photo rl tw).state.fs (tempPath photo) = none
    ∧ (processItem st photo rl tw).state.cursor = st.cursor := by
  have ha := attemptItem_equal st photo rl tw f0 hex heq
  have hp := processItem_of_first_ok st photo rl tw _ h0 ha
  rw [hp]
  refine ⟨?_, ?_, rfl⟩
  · show fsLookup (osRemove
        (reset_file_timestamp (fsSet st.fs (tempPath photo) ⟨photo.content, 0, 0⟩)
          (finalPath photo) photo.added_date 0)
        (tempPath photo)) (finalPath photo) = _
    rw [fsLookup_osRemove_ne _ _ _ (finalPath_ne_tempPath_self photo)]
    rw [reset_file_timestamp_eq_utime]
    rw [fsLookup_osUtime_self _ _ _ _ f0
      (by rw [fsLookup_fsSet_ne _ _ _ _ (finalPath_ne_tempPath_self photo)]; exact hex)]
  · show fsLookup (osRemove _ (tempPath photo)) (tempPath photo) = none
    exact fsLookup_osRemove_self _ _

/-- C1 counterexample: an up-to-date item (local content equals remote)
is processed successfully — content untouched, timestamps reset, staging
file deleted — but the cursor is NOT advanced to its identifier "A": it
stays `none`. -/
theorem c1_cx :
    (processItem ⟨[("downloaded_files/A", ⟨[5], 3, 3⟩)], none, 0⟩
        ⟨"A", [5], ⟨100, none⟩, 0, 0⟩ RATE_LIMIT TIME_WINDOW).state
      = ⟨[("downloaded_files/A", ⟨[5], 100, 100⟩)], none, 0⟩
    ∧ (processItem ⟨[("downloaded_files/A", ⟨[5], 3, 3⟩)], none, 0⟩
        ⟨"A", [5], ⟨100, none⟩, 0, 0⟩ RATE_LIMIT TIME_WINDOW).state.cursor ≠ some "A" := by
  decide

/-- C1 witness: the amended theorem applied at a concrete up-to-date item. -/
theorem c1_witness :
    fsLookup (⟨[("downloaded_files/A", ⟨[5], 3, 3⟩)], some "Z", 7⟩ : EngineState).fs
        (finalPath ⟨"A", [5], ⟨100, none⟩, 0, 0⟩) = some ⟨[5], 3, 3⟩
    ∧ fsLookup (processItem ⟨[("downloaded_files/A", ⟨[5], 3, 3⟩)], some "Z", 7⟩
          ⟨"A", [5], ⟨100, none⟩, 0, 0⟩ RATE_LIMIT TIME_WINDOW).state.fs
        (finalPath ⟨"A", [5], ⟨100, none⟩, 0, 0⟩)
      = some ⟨[5], remoteInstant ⟨100, none⟩, remoteInstant ⟨100, none⟩⟩
    ∧ fsLookup (processItem ⟨[("downloaded_files/A", ⟨[5], 3, 3⟩)], some "Z", 7⟩
          ⟨"A", [5], ⟨100, none⟩, 0, 0⟩ RATE_LIMIT TIME_WINDOW).state.fs
        (tempPath ⟨"A", [5], ⟨100, none⟩, 0, 0⟩) = none
    ∧ (processItem ⟨[("downloaded_files/A", ⟨[5], 3, 3⟩)], some "Z", 7⟩
          ⟨"A", [5], ⟨100, none⟩, 0, 0⟩ RATE_LIMIT TIME_WINDOW).state.cursor = some "Z" := by
  have h := c1_equal_pass ⟨[("downloaded_files/A", ⟨[5], 3, 3⟩)], some "Z", 7⟩
    ⟨"A", [5], ⟨100, none⟩, 0, 0⟩ RATE_LIMIT TIME_WINDOW ⟨[5], 3, 3⟩ (by decide) rfl rfl
  exact ⟨by decide, h.1, h.2.1, h.2.2⟩

/-- C2 (amended): the code computes the backoff from the already
incremented attempt counter, so after failed attempt n (0-based) it
sleeps min(INITIAL_WAIT * 2^(n+1), MAX_WAIT) seconds, provided
n + 1 < MAX_RETRIES.  For an item whose downloads keep failing the
successive waits are therefore 2, 4, 8, 16 seconds (not 1, 2, 4, 8, 16,
32), and exactly MAX_RETRIES = 5 attempts are made, so a 6th attempt
never happens. -/
theorem c2_backoff_schedule (st : EngineState) (photo : Photo) (rl tw : Nat)
    (h : MAX_RETRIES ≤ photo.transientFailures) :
    (processItem st photo rl tw).backoffSleeps
        = (List.range (MAX_RETRIES - 1)).map
            (fun n => min (INITIAL_WAIT * 2 ^ (n + 1)) MAX_WAIT)
    ∧ (processItem st photo rl tw).backoffSleeps = [2, 4, 8, 16]
    ∧ (processItem st photo rl tw).attempts = MAX_RETRIES := by
  obtain ⟨fs1, he⟩ := retryLoop_exhaust photo rl tw MAX_RETRIES 0 st (by decide) (by omega)
  have hb : (processItem st photo rl tw).backoffSleeps
      = (List.range (MAX_RETRIES - 1)).map (fun i => exponential_backoff (0 + 1 + i)) := by
    unfold processItem
    rw [he]
  have hatt : (processItem st photo rl tw).attempts = MAX_RETRIES := by
    unfold processItem
    rw [he]
  refine ⟨?_, ?_, hatt⟩
  · rw [hb]
    decide
  · rw [hb]
    decide

/-- C2 counterexample: with INITIAL_WAIT = 1 and MAX_WAIT = 60 the
observed waits for an always-failing item are [2, 4, 8, 16]: the wait
after failed attempt 0 is 2, not min(INITIAL_WAIT * 2^0, MAX_WAIT) = 1 as
the claim states, and there are only four sleeps across the five
attempts. -/
theorem c2_cx :
    (processItem ⟨[], none, 0⟩ ⟨"D", [1], ⟨0, none⟩, 5, 0⟩
        RATE_LIMIT TIME_WINDOW).backoffSleeps = [2, 4, 8, 16]
    ∧ (processItem ⟨[], none, 0⟩ ⟨"D", [1], ⟨0, none⟩, 5, 0⟩
        RATE_LIMIT TIME_WINDOW).backoffSleeps
      ≠ [min (INITIAL_WAIT * 2 ^ 0) MAX_WAIT, min (INITIAL_WAIT * 2 ^ 1) MAX_WAIT,
          min (INITIAL_WAIT * 2 ^ 2) MAX_WAIT, min (INITIAL_WAIT * 2 ^ 3) MAX_WAIT] := by
  decide

/-- C2 witness: the amended schedule at a concrete always-failing item. -/
theorem c2_witness :
    MAX_RETRIES ≤ (⟨"D", [1], ⟨0, none⟩, 6, 0⟩ : Photo).transientFailures
    ∧ (processItem ⟨[], none, 3⟩ ⟨"D", [1], ⟨0, none⟩, 6, 0⟩ 100 0).backoffSleeps = [2, 4, 8, 16]
    ∧ (processItem ⟨[], none, 3⟩ ⟨"D", [1], ⟨0, none⟩, 6, 0⟩ 100 0).attempts = MAX_RETRIES := by
  refine ⟨by decide, ?_, ?_⟩
  · exact (c2_backoff_schedule ⟨[], none, 3⟩ ⟨"D", [1], ⟨0, none⟩, 6, 0⟩ 100 0 (by decide)).2.1
  · exact (c2_backoff_schedule ⟨[], none, 3⟩ ⟨"D", [1], ⟨0, none⟩, 6, 0⟩ 100 0 (by decide)).2.2

/-- One step of the retry loop when the attempt succeeds: the loop
returns immediately with the attempt's result. -/
theorem retryLoop_of_ok (st : EngineState) (photo : Photo) (rl tw : Nat) (r : AttemptOk)
    (attempt f : Nat)
    (hd : decide (attempt < photo.transientFailures) = false)
    (hr : attemptItem st photo false rl tw = Except.ok r) :
    retryLoop photo rl tw st attempt (f + 1) = ⟨r.state, [], r.rateSleeps, 1⟩ := by
  unfold retryLoop
  rw [hd, hr]

/-- Through the retry loop, an item whose processing eventually succeeds
within the remaining fuel ends with no staging artifact, given the
invariant that the staging path is empty or the final path exists.  The
invariant is preserved by failed attempts (a failing download in the
fresh branch creates the final path; in the existing-file branch the
final path was already there), and a successful attempt with the final
path present takes the existing-file branch, which always deletes or
renames the staging file. -/
theorem retryLoop_temp_clean (photo : Photo) (rl tw : Nat) :
    ∀ fuel attempt st, 0 < fuel → photo.transientFailures < attempt + fuel →
      (fsLookup st.fs (tempPath photo) = none
        ∨ (fsLookup st.fs (finalPath photo)).isSome = true) →
      fsLookup (retryLoop photo rl tw st attempt fuel).state.fs (tempPath photo) = none := by
  intro fuel
  induction fuel with
  | zero => intro attempt st h; exact absurd h (Nat.lt_irrefl 0)
  | succ f ih =>
    intro attempt st _ hbound hinv
    by_cases hlt : attempt < photo.transientFailures
    · have hd : decide (attempt < photo.transientFailures) = true := by
        simp [hlt]
      have hf : f > 0 := by omega
      unfold retryLoop
      rw [hd, attemptItem_fail]
      dsimp only
      rw [if_pos hf]
      have hinv2 : fsLookup (failedDownload st.fs
          (if pathExists st.fs (finalPath photo) then tempPath photo else finalPath photo)
          photo.content photo.failChunks) (tempPath photo) = none
          ∨ (fsLookup (failedDownload st.fs
            (if pathExists st.fs (finalPath photo) then tempPath photo else finalPath photo)
            photo.content photo.failChunks) (finalPath photo)).isSome = true := by
        right
        unfold failedDownload
        by_cases hpe : pathExists st.fs (finalPath photo) = true
        · rw [if_pos hpe, fsLookup_fsSet_ne _ _ _ _ (finalPath_ne_tempPath_self photo)]
          exact hpe
        · rw [if_neg hpe, fsLookup_fsSet_self]
          rfl
      exact ih (attempt + 1)
        ⟨failedDownload st.fs
          (if pathExists st.fs (finalPath photo) then tempPath photo else finalPath photo)
          photo.content photo.failChunks, st.cursor, st.requests⟩
        hf (by omega) hinv2
    · have hd : decide (attempt < photo.transientFailures) = false := by
        simpa using hlt
      cases hex : fsLookup st.fs (finalPath photo) with
      | none =>
        have htemp : fsLookup st.fs (tempPath photo) = none := by
          rcases hinv with h | h
          · exact h
          · rw [hex] at h
            exact absurd h (by simp)
        rw [retryLoop_of_ok st photo rl tw _ attempt f hd (attemptItem_fresh st photo rl tw hex)]
        show fsLookup (commitTail
          ⟨fsSet st.fs (finalPath photo) ⟨photo.content, 0, 0⟩, st.cursor, st.requests⟩
          photo rl tw).state.fs (tempPath photo) = none
        rw [commitTail_fs, reset_file_timestamp_eq_utime]
        rw [fsLookup_osUtime_ne _ _ _ _ _ (Ne.symm (finalPath_ne_tempPath_self photo))]
        rw [fsLookup_fsSet_ne _ _ _ _ (Ne.symm (finalPath_ne_tempPath_self photo))]
        exact htemp
      | some f0 =>
        by_cases heq : f0.content = photo.content
        · rw [retryLoop_of_ok st photo rl tw _ attempt f hd
            (attemptItem_equal st photo rl tw f0 hex heq)]
          exact fsLookup_osRemove_self _ _
        · rw [retryLoop_of_ok st photo rl tw _ attempt f hd
            (attemptItem_differs st photo rl tw f0 hex heq)]
          show fsLookup (commitTail
            ⟨osRename (fsSet st.fs (tempPath photo) ⟨photo.content, 0, 0⟩)
              (tempPath photo) (finalPath photo), st.cursor, st.requests⟩
            photo rl tw).state.fs (tempPath photo) = none
          rw [commitTail_fs, reset_file_timestamp_eq_utime]
          rw [fsLookup_osUtime_ne _ _ _ _ _ (Ne.symm (finalPath_ne_tempPath_self photo))]
          exact fsLookup_osRename_src _ _ _ ⟨photo.content, 0, 0⟩
            (fsLookup_fsSet_self _ _ _) (Ne.symm (finalPath_ne_tempPath_self photo))

/-- C4 (amended): for every item whose processing eventually succeeds —
immediately, after transient failures, or by being found already
up-to-date — no staging artifact remains on disk afterwards (given no
stale staging file predates the item): the staged download is always
promoted or deleted.  An item that exhausts all MAX_RETRIES attempts,
however, leaves the partially written staging file on disk (see the
counterexample). -/
theorem c4_no_staging_on_success (st : EngineState) (photo : Photo) (rl tw : Nat)
    (hsucc : photo.transientFailures < MAX_RETRIES)
    (hpre : fsLookup st.fs (tempPath photo) = none) :
    fsLookup (processItem st photo rl tw).state.fs (tempPath photo) = none :=
  retryLoop_temp_clean photo rl tw MAX_RETRIES 0 st (by decide) (by omega) (Or.inl hpre)

/-- C4 counterexample: an item whose five download attempts all fail
(each writing one chunk into the staging file before raising) is given up
on, and the partially written staging artifact
downloaded_files/D.temp remains on disk after processing finishes. -/
theorem c4_cx :
    fsLookup (processItem ⟨[("downloaded_files/D", ⟨[9], 0, 0⟩)], none, 0⟩
        ⟨"D", [1, 2], ⟨0, none⟩, 5, 1⟩ RATE_LIMIT TIME_WINDOW).state.fs
      "downloaded_files/D.temp" = some ⟨[1], 0, 0⟩ := by
  decide

/-- C4 witness: the amended theorem at a concrete item that fails its
first two download attempts and then succeeds, existing locally with
different content: no staging artifact remains. -/
theorem c4_witness :
    (⟨"A", [5, 6], ⟨0, none⟩, 2, 1⟩ : Photo).transientFailures < MAX_RETRIES
    ∧ fsLookup (⟨[("downloaded_files/A", ⟨[9], 0, 0⟩)], none, 0⟩ : EngineState).fs
        (tempPath ⟨"A", [5, 6], ⟨0, none⟩, 2, 1⟩) = none
    ∧ fsLookup (processItem ⟨[("downloaded_files/A", ⟨[9], 0, 0⟩)], none, 0⟩
          ⟨"A", [5, 6], ⟨0, none⟩, 2, 1⟩ RATE_LIMIT TIME_WINDOW).state.fs
        (tempPath ⟨"A", [5, 6], ⟨0, none⟩, 2, 1⟩) = none := by
  refine ⟨by decide, by decide, ?_⟩
  exact c4_no_staging_on_success ⟨[("downloaded_files/A", ⟨[9], 0, 0⟩)], none, 0⟩
    ⟨"A", [5, 6], ⟨0, none⟩, 2, 1⟩ RATE_LIMIT TIME_WINDOW (by decide) (by decide)

/-- C5: for an item whose existing local file's digest differs from the
remote content's digest, the staged file is promoted over the final path
by the single rename step, after which the final file's digest equals the
remote content digest, no staging artifact remains, and the item is
committed to the cursor. -/
theorem c5_atomic_replace (st : EngineState) (photo : Photo) (rl tw : Nat) (f0 : FileData)
    (hex : fsLookup st.fs (finalPath photo) = some f0)
    (hne : md5Digest f0.content ≠ md5Digest photo.content)
    (h0 : photo.transientFailures = 0) :
    (contentAt (processItem st photo rl tw).state.fs (finalPath photo)).map md5Digest
        = some (md5Digest photo.content)
    ∧ contentAt (processItem st photo rl tw).state.fs (finalPath photo) = some photo.content
    ∧ fsLookup (processItem st photo rl tw).state.fs (tempPath photo) = none
    ∧ (processItem st photo rl tw).state.cursor = some photo.filename := by
  have hne2 : f0.content ≠ photo.content := hne
  have ha := attemptItem_differs st photo rl tw f0 hex hne2
  have hp := processItem_of_first_ok st photo rl tw _ h0 ha
  rw [hp]
  have hfinal : fsLookup (commitTail
      ⟨osRename (fsSet st.fs (tempPath photo) ⟨photo.content, 0, 0⟩)
        (tempPath photo) (finalPath photo), st.cursor, st.requests⟩
      photo rl tw).state.fs (finalPath photo)
      = some ⟨photo.content, remoteInstant photo.added_date, remoteInstant photo.added_date⟩ := by
    rw [commitTail_fs, reset_file_timestamp_eq_utime]
    rw [fsLookup_osUtime_self _ _ _ _ ⟨photo.content, 0, 0⟩
      (fsLookup_osRename_dst _ _ _ _ (fsLookup_fsSet_self _ _ _))]
  have htemp : fsLookup (commitTail
      ⟨osRename (fsSet st.fs (tempPath photo) ⟨photo.content, 0, 0⟩)
        (tempPath photo) (finalPath photo), st.cursor, st.requests⟩
      photo rl tw).state.fs (tempPath photo) = none := by
    rw [commitTail_fs, reset_file_timestamp_eq_utime]
    rw [fsLookup_osUtime_ne _ _ _ _ _ (Ne.symm (finalPath_ne_tempPath_self photo))]
    exact fsLookup_osRename_src _ _ _ ⟨photo.content, 0, 0⟩
      (fsLookup_fsSet_self _ _ _) (Ne.symm (finalPath_ne_tempPath_self photo))
  refine ⟨?_, ?_, htemp, commitTail_cursor _ photo rl tw⟩
  · simp [contentAt, hfinal, md5Digest]
  · simp [contentAt, hfinal]

/-- C5 witness: atomic replace at a concrete differing item. -/
theorem c5_witness :
    fsLookup (⟨[("downloaded_files/B", ⟨[9], 1, 1⟩)], none, 0⟩ : EngineState).fs
        (finalPath ⟨"B", [5, 6], ⟨200, some 60⟩, 0, 0⟩) = some ⟨[9], 1, 1⟩
    ∧ md5Digest [9] ≠ md5Digest [5, 6]
    ∧ contentAt (processItem ⟨[("downloaded_files/B", ⟨[9], 1, 1⟩)], none, 0⟩
          ⟨"B", [5, 6], ⟨200, some 60⟩, 0, 0⟩ RATE_LIMIT TIME_WINDOW).state.fs
        (finalPath ⟨"B", [5, 6], ⟨200, some 60⟩, 0, 0⟩) = some [5, 6]
    ∧ fsLookup (processItem ⟨[("downloaded_files/B", ⟨[9], 1, 1⟩)], none, 0⟩
          ⟨"B", [5, 6], ⟨200, some 60⟩, 0, 0⟩ RATE_LIMIT TIME_WINDOW).state.fs
        (tempPath ⟨"B", [5, 6], ⟨200, some 60⟩, 0, 0⟩) = none
    ∧ (processItem ⟨[("downloaded_files/B", ⟨[9], 1, 1⟩)], none, 0⟩
          ⟨"B", [5, 6], ⟨200, some 60⟩, 0, 0⟩ RATE_LIMIT TIME_WINDOW).state.cursor
        = some "B" := by
  have h := c5_atomic_replace ⟨[("downloaded_files/B", ⟨[9], 1, 1⟩)], none, 0⟩
    ⟨"B", [5, 6], ⟨200, some 60⟩, 0, 0⟩ RATE_LIMIT TIME_WINDOW ⟨[9], 1, 1⟩
    (by decide) (by decide) rfl
  exact ⟨by decide, by decide, h.2.1, h.2.2.1, h.2.2.2⟩

/-- C9 (amended): the rate-limit counter counts only items committed via
the download path (a fresh download or a replacement); an item found
already up-to-date completes without touching the counter, because the
equal branch breaks out of the loop before `requests_made += 1`.  When
the counter reaches `rateLimit` it is reset to 0 after pausing
`timeWindow` seconds if `timeWindow > 0` (with the default TIME_WINDOW =
0 there is no pause). -/
theorem c9_rate_counter (st : EngineState) (photo : Photo) (rl tw : Nat)
    (h0 : photo.transientFailures = 0) :
    (∀ f0, fsLookup st.fs (finalPath photo) = some f0 → f0.content = photo.content →
        (processItem st photo rl tw).state.requests = st.requests
        ∧ (processItem st photo rl tw).rateSleeps = [])
    ∧ (∀ f0, fsLookup st.fs (finalPath photo) = some f0 → f0.content ≠ photo.content →
        (processItem st photo rl tw).state.requests
            = (if st.requests + 1 >= rl then 0 else st.requests + 1)
        ∧ (processItem st photo rl tw).rateSleeps
            = (if st.requests + 1 >= rl ∧ tw > 0 then [tw] else []))
    ∧ (fsLookup st.fs (finalPath photo) = none →
        (processItem st photo rl tw).state.requests
            = (if st.requests + 1 >= rl then 0 else st.requests + 1)
        ∧ (processItem st photo rl tw).rateSleeps
            = (if st.requests + 1 >= rl ∧ tw > 0 then [tw] else [])) := by
  refine ⟨?_, ?_, ?_⟩
  · intro f0 hex heq
    have hp := processItem_of_first_ok st photo rl tw _ h0 (attemptItem_equal st photo rl tw f0 hex heq)
    rw [hp]
    exact ⟨rfl, rfl⟩
  · intro f0 hex hne
    have hp := processItem_of_first_ok st photo rl tw _ h0 (attemptItem_differs st photo rl tw f0 hex hne)
    rw [hp]
    exact ⟨commitTail_requests _ photo rl tw, commitTail_rateSleeps _ photo rl tw⟩
  · intro hex
    have hp := processItem_of_first_ok st photo rl tw _ h0 (attemptItem_fresh st photo rl tw hex)
    rw [hp]
    exact ⟨commitTail_requests _ photo rl tw, commitTail_rateSleeps _ photo rl tw⟩

/-- C9 counterexample: with the counter at 99 and RATE_LIMIT = 100, an
item found already up-to-date completes successfully but leaves the
counter at 99 — per the claim this item should have been counted,
making the counter reach RATE_LIMIT and reset to 0. -/
theorem c9_cx :
    (processItem ⟨[("downloaded_files/A", ⟨[5], 0, 0⟩)], none, 99⟩
        ⟨"A", [5], ⟨0, none⟩, 0, 0⟩ RATE_LIMIT TIME_WINDOW).state.requests = 99
    ∧ (99 : Nat) + 1 >= RATE_LIMIT
    ∧ (processItem ⟨[("downloaded_files/A", ⟨[5], 0, 0⟩)], none, 99⟩
        ⟨"A", [5], ⟨0, none⟩, 0, 0⟩ RATE_LIMIT TIME_WINDOW).state.requests ≠ 0 := by
  decide

/-- C9 witness: the amended theorem at an up-to-date item (counter
untouched) and at a fresh item that makes the counter reach the limit
(reset to 0, pause of timeWindow = 7). -/
theorem c9_witness :
    (processItem ⟨[("downloaded_files/A", ⟨[5], 0, 0⟩)], none, 99⟩
        ⟨"A", [5], ⟨0, none⟩, 0, 0⟩ 100 0).state.requests = 99
    ∧ (processItem ⟨[], none, 1⟩ ⟨"C", [5], ⟨0, none⟩, 0, 0⟩ 2 7).state.requests = 0
    ∧ (processItem ⟨[], none, 1⟩ ⟨"C", [5], ⟨0, none⟩, 0, 0⟩ 2 7).rateSleeps = [7] := by
  have h1 := (c9_rate_counter ⟨[("downloaded_files/A", ⟨[5], 0, 0⟩)], none, 99⟩
    ⟨"A", [5], ⟨0, none⟩, 0, 0⟩ 100 0 rfl).1 ⟨[5], 0, 0⟩ (by decide) rfl
  have h3 := (c9_rate_counter ⟨[], none, 1⟩ ⟨"C", [5], ⟨0, none⟩, 0, 0⟩ 2 7 rfl).2.2 (by decide)
  refine ⟨h1.1, ?_, ?_⟩
  · rw [h3.1]
    decide
  · rw [h3.2]
    decide

/-- C6 (amended): an item that exhausts MAX_RETRIES attempts is skipped
and the cursor is never set to its identifier; the engine continues with
the next item.  A subsequent run retries the skipped item from attempt 0
when no later item committed in the failing run (here: a singleton
listing); but if a later item commits, the cursor moves past the failed
item and the next run skips it (see the counterexample). -/
theorem c6_exhausted_skip (st : EngineState) (photo : Photo) (rl tw : Nat)
    (h : MAX_RETRIES ≤ photo.transientFailures) (hc : st.cursor = none) :
    (processItem st photo rl tw).state.cursor = st.cursor
    ∧ (runEngine st [photo]).1.cursor = none
    ∧ (runEngine (runEngine st [photo]).1 [photo]).2 = [photo.filename] := by
  obtain ⟨fs1, he⟩ := retryLoop_exhaust photo rl tw MAX_RETRIES 0 st (by decide) (by omega)
  obtain ⟨fs2, he2⟩ := retryLoop_exhaust photo RATE_LIMIT TIME_WINDOW MAX_RETRIES 0 st
    (by decide) (by omega)
  have h1 : (processItem st photo rl tw).state.cursor = st.cursor := by
    unfold processItem
    rw [he]
  have hrun : runEngine st [photo]
      = ((processItem st photo RATE_LIMIT TIME_WINDOW).state, [photo.filename]) := by
    unfold runEngine
    rw [hc]
    simp [syncLoop]
  have hcur : (runEngine st [photo]).1.cursor = none := by
    rw [hrun]
    show (processItem st photo RATE_LIMIT TIME_WINDOW).state.cursor = none
    unfold processItem
    rw [he2]
    exact hc
  have hrun2 : ∀ s2 : EngineState, s2.cursor = none → (runEngine s2 [photo]).2 = [photo.filename] := by
    intro s2 h2
    unfold runEngine
    rw [h2]
    simp [syncLoop]
  exact ⟨h1, hcur, hrun2 _ hcur⟩

/-- C6 counterexample: D's five download attempts all fail, then E
commits, moving the cursor to "E" — past D.  The second run over the
same listing skips everything up to and including "E" and processes
nothing, so the skipped item D is never retried, contrary to the
claim. -/
theorem c6_cx :
    (processItem ⟨[], none, 0⟩ ⟨"D", [1], ⟨0, none⟩, 5, 0⟩
        RATE_LIMIT TIME_WINDOW).attempts = MAX_RETRIES
    ∧ (runEngine ⟨[], none, 0⟩ [⟨"D", [1], ⟨0, none⟩, 5, 0⟩,
        ⟨"E", [2], ⟨0, none⟩, 0, 0⟩]).1.cursor = some "E"
    ∧ (runEngine (runEngine ⟨[], none, 0⟩ [⟨"D", [1], ⟨0, none⟩, 5, 0⟩,
          ⟨"E", [2], ⟨0, none⟩, 0, 0⟩]).1
        [⟨"D", [1], ⟨0, none⟩, 5, 0⟩, ⟨"E", [2], ⟨0, none⟩, 0, 0⟩]).2 = [] := by
  decide

/-- C6 witness: the amended theorem at a concrete always-failing item in
a singleton listing. -/
theorem c6_witness :
    MAX_RETRIES ≤ (⟨"D", [1], ⟨0, none⟩, 5, 0⟩ : Photo).transientFailures
    ∧ (runEngine ⟨[], none, 0⟩ [⟨"D", [1], ⟨0, none⟩, 5, 0⟩]).1.cursor = none
    ∧ (runEngine (runEngine ⟨[], none, 0⟩ [⟨"D", [1], ⟨0, none⟩, 5, 0⟩]).1
        [⟨"D", [1], ⟨0, none⟩, 5, 0⟩]).2 = ["D"] := by
  have h := c6_exhausted_skip ⟨[], none, 0⟩ ⟨"D", [1], ⟨0, none⟩, 5, 0⟩ 100 0 (by decide) rfl
  exact ⟨by decide, h.2.1, h.2.2⟩

theorem contentAt_fsSet_ne (fs : FS) (p q : String) (f : FileData) (h : q ≠ p) :
    contentAt (fsSet fs p f) q = contentAt fs q := by
  unfold contentAt
  rw [fsLookup_fsSet_ne fs p q f h]

theorem contentAt_osRemove_ne (fs : FS) (p q : String) (h : q ≠ p) :
    contentAt (osRemove fs p) q = contentAt fs q := by
  unfold contentAt
  rw [fsLookup_osRemove_ne fs p q h]

theorem contentAt_osRename_dst (fs : FS) (src dst : String) (f : FileData)
    (h : fsLookup fs src = some f) :
    contentAt (osRename fs src dst) dst = some f.content := by
  unfold contentAt
  rw [fsLookup_osRename_dst fs src dst f h]
  rfl

/-- C7 (amended): for an item that already exists locally, every
intermediate state an interrupt can observe has the final path holding
either the old content or the full remote content (the download goes to
the staging path, and promotion is a single rename), and the cursor is
either the pre-item cursor or the item's own committed identifier —
never anything partial.  For a NEW item, however, the download writes
directly to the final destination path, so an interrupt mid-download can
leave a partially written file visible there (see the counterexample). -/
theorem c7_interrupt_safety (st : EngineState) (photo : Photo) (f0 : FileData)
    (hex : fsLookup st.fs (finalPath photo) = some f0) :
    ∀ s ∈ attemptStates st photo,
      (contentAt s.fs (finalPath photo) = some f0.content
        ∨ contentAt s.fs (finalPath photo) = some photo.content)
      ∧ (s.cursor = st.cursor ∨ s.cursor = some photo.filename) := by
  intro s hs
  have hpe : pathExists st.fs (finalPath photo) = true := by
    unfold pathExists
    rw [hex]
    rfl
  have hct : contentAt st.fs (finalPath photo) = some f0.content := by
    unfold contentAt
    rw [hex]
    rfl
  have hne : finalPath photo ≠ tempPath photo := finalPath_ne_tempPath_self photo
  unfold attemptStates at hs
  simp only [hpe, eq_self_iff_true, if_true, downloadStates, List.map_map] at hs
  by_cases heq : calculate_file_hash st.fs (finalPath photo) = md5Digest photo.content
  · simp only [heq, eq_self_iff_true, if_true, List.mem_cons, List.mem_append, List.mem_map,
      List.mem_range, Function.comp_apply] at hs
    rcases hs with (hs | ⟨k, hk, hs⟩) | hs | hs | hs
    · subst hs
      exact ⟨Or.inl hct, Or.inl rfl⟩
    · subst hs
      refine ⟨Or.inl ?_, Or.inl rfl⟩
      dsimp only
      rw [contentAt_fsSet_ne _ _ _ _ hne]
      exact hct
    · subst hs
      refine ⟨Or.inl ?_, Or.inl rfl⟩
      dsimp only
      rw [contentAt_reset_file_timestamp, contentAt_fsSet_ne _ _ _ _ hne]
      exact hct
    · subst hs
      refine ⟨Or.inl ?_, Or.inl rfl⟩
      dsimp only
      rw [contentAt_osRemove_ne _ _ _ hne, contentAt_reset_file_timestamp,
        contentAt_fsSet_ne _ _ _ _ hne]
      exact hct
    · exact absurd hs (List.not_mem_nil s)
  · simp only [heq, if_false, List.mem_cons, List.mem_append, List.mem_map,
      List.mem_range, Function.comp_apply] at hs
    have hdst : contentAt (osRename (fsSet st.fs (tempPath photo) ⟨photo.content, 0, 0⟩)
        (tempPath photo) (finalPath photo)) (finalPath photo) = some photo.content :=
      contentAt_osRename_dst _ _ _ ⟨photo.content, 0, 0⟩ (fsLookup_fsSet_self _ _ _)
    rcases hs with (hs | ⟨k, hk, hs⟩) | hs | hs | hs | hs
    · subst hs
      exact ⟨Or.inl hct, Or.inl rfl⟩
    · subst hs
      refine ⟨Or.inl ?_, Or.inl rfl⟩
      dsimp only
      rw [contentAt_fsSet_ne _ _ _ _ hne]
      exact hct
    · subst hs
      refine ⟨Or.inr ?_, Or.inl rfl⟩
      dsimp only
      exact hdst
    · subst hs
      refine ⟨Or.inr ?_, Or.inl rfl⟩
      dsimp only
      rw [contentAt_reset_file_timestamp]
      exact hdst
    · subst hs
      refine ⟨Or.inr ?_, Or.inr (commitTail_cursor _ photo RATE_LIMIT TIME_WINDOW)⟩
      rw [commitTail_fs, contentAt_reset_file_timestamp]
      exact hdst
    · exact absurd hs (List.not_mem_nil s)

/-- C7 counterexample: a new item "A" with remote content [7, 8] is
downloaded directly to its final destination path, so the engine passes
through an interruptible state in which the final path holds the partial
content [7] — a partially written file visible at a final path,
contrary to the claim. -/
theorem c7_cx :
    ¬ (∀ s ∈ attemptStates ⟨[], none, 0⟩ (⟨"A", [7, 8], ⟨0, none⟩, 0, 0⟩ : Photo),
        contentAt s.fs (finalPath ⟨"A", [7, 8], ⟨0, none⟩, 0, 0⟩) = none
        ∨ contentAt s.fs (finalPath ⟨"A", [7, 8], ⟨0, none⟩, 0, 0⟩) = some [7, 8]) := by
  decide

/-- C7 witness: the amended safety property applied to a concrete
existing item, at the intermediate state where one chunk of the staged
download has been written. -/
theorem c7_witness :
    fsLookup (⟨[("downloaded_files/A", ⟨[9], 0, 0⟩)], none, 0⟩ : EngineState).fs
        (finalPath ⟨"A", [7, 8], ⟨0, none⟩, 0, 0⟩) = some ⟨[9], 0, 0⟩
    ∧ ((contentAt (⟨[("downloaded_files/A", ⟨[9], 0, 0⟩),
            ("downloaded_files/A.temp", ⟨[7], 0, 0⟩)], none, 0⟩ : EngineState).fs
          (finalPath ⟨"A", [7, 8], ⟨0, none⟩, 0, 0⟩) = some [9]
        ∨ contentAt (⟨[("downloaded_files/A", ⟨[9], 0, 0⟩),
            ("downloaded_files/A.temp", ⟨[7], 0, 0⟩)], none, 0⟩ : EngineState).fs
          (finalPath ⟨"A", [7, 8], ⟨0, none⟩, 0, 0⟩) = some [7, 8])
      ∧ ((⟨[("downloaded_files/A", ⟨[9], 0, 0⟩),
            ("downloaded_files/A.temp", ⟨[7], 0, 0⟩)], none, 0⟩ : EngineState).cursor = none
        ∨ (⟨[("downloaded_files/A", ⟨[9], 0, 0⟩),
            ("downloaded_files/A.temp", ⟨[7], 0, 0⟩)], none, 0⟩ : EngineState).cursor
          = some "A")) := by
  refine ⟨by decide, ?_⟩
  exact c7_interrupt_safety ⟨[("downloaded_files/A", ⟨[9], 0, 0⟩)], none, 0⟩
    ⟨"A", [7, 8], ⟨0, none⟩, 0, 0⟩ ⟨[9], 0, 0⟩ (by decide)
    ⟨[("downloaded_files/A", ⟨[9], 0, 0⟩), ("downloaded_files/A.temp", ⟨[7], 0, 0⟩)], none, 0⟩
    (by decide)

theorem contentAt_fsSet_self (fs : FS) (p : String) (f : FileData) :
    contentAt (fsSet fs p f) p = some f.content := by
  unfold contentAt
  rw [fsLookup_fsSet_self]
  rfl

theorem attemptItem_ok_cursor (st : EngineState) (photo : Photo) (b : Bool) (rl tw : Nat) :
    ∀ r, attemptItem st photo b rl tw = Except.ok r →
      r.state.cursor = st.cursor ∨ r.state.cursor = some photo.filename := by
  intro r hr
  cases b with
  | true =>
    rw [attemptItem_fail] at hr
    exact absurd hr (by simp)
  | false =>
    cases hex : fsLookup st.fs (finalPath photo) with
    | none =>
      rw [attemptItem_fresh st photo rl tw hex] at hr
      injection hr with h
      subst h
      exact Or.inr (commitTail_cursor _ photo rl tw)
    | some f0 =>
      by_cases heq : f0.content = photo.content
      · rw [attemptItem_equal st photo rl tw f0 hex heq] at hr
        injection hr with h
        subst h
        exact Or.inl rfl
      · rw [attemptItem_differs st photo rl tw f0 hex heq] at hr
        injection hr with h
        subst h
        exact Or.inr (commitTail_cursor _ photo rl tw)

theorem attemptItem_untouched (st : EngineState) (photo : Photo) (b : Bool) (rl tw : Nat)
    (q : String) (h1 : q ≠ finalPath photo) (h2 : q ≠ tempPath photo) :
    (∀ r, attemptItem st photo b rl tw = Except.ok r →
      fsLookup r.state.fs q = fsLookup st.fs q)
    ∧ (∀ f1, attemptItem st photo b rl tw = Except.error f1 →
      fsLookup f1 q = fsLookup st.fs q) := by
  cases b with
  | true =>
    constructor
    · intro r hr
      rw [attemptItem_fail] at hr
      exact absurd hr (by simp)
    · intro f1 hf
      rw [attemptItem_fail] at hf
      injection hf with h
      subst h
      unfold failedDownload
      by_cases hpe : pathExists st.fs (finalPath photo)
      · rw [if_pos hpe]
        exact fsLookup_fsSet_ne _ _ _ _ h2
      · rw [if_neg hpe]
        exact fsLookup_fsSet_ne _ _ _ _ h1
  | false =>
    constructor
    · intro r hr
      cases hex : fsLookup st.fs (finalPath photo) with
      | none =>
        rw [attemptItem_fresh st photo rl tw hex] at hr
        injection hr with h
        subst h
        rw [commitTail_fs, reset_file_timestamp_eq_utime]
        rw [fsLookup_osUtime_ne _ _ _ _ _ h1]
        exact fsLookup_fsSet_ne _ _ _ _ h1
      | some f0 =>
        by_cases heq : f0.content = photo.content
        · rw [attemptItem_equal st photo rl tw f0 hex heq] at hr
          injection hr with h
          subst h
          show fsLookup (osRemove
            (reset_file_timestamp (fsSet st.fs (tempPath photo) ⟨photo.content, 0, 0⟩)
              (finalPath photo) photo.added_date 0) (tempPath photo)) q = _
          rw [fsLookup_osRemove_ne _ _ _ h2, reset_file_timestamp_eq_utime]
          rw [fsLookup_osUtime_ne _ _ _ _ _ h1]
          exact fsLookup_fsSet_ne _ _ _ _ h2
        · rw [attemptItem_differs st photo rl tw f0 hex heq] at hr
          injection hr with h
          subst h
          rw [commitTail_fs, reset_file_timestamp_eq_utime]
          rw [fsLookup_osUtime_ne _ _ _ _ _ h1]
          rw [fsLookup_osRename_other _ _ _ _ h2 h1]
          exact fsLookup_fsSet_ne _ _ _ _ h2
    · intro f1 hf
      cases hex : fsLookup st.fs (finalPath photo) with
      | none =>
        rw [attemptItem_fresh st photo rl tw hex] at hf
        exact absurd hf (by simp)
      | some f0 =>
        by_cases heq : f0.content = photo.content
        · rw [attemptItem_equal st photo rl tw f0 hex heq] at hf
          exact absurd hf (by simp)
        · rw [attemptItem_differs st photo rl tw f0 hex heq] at hf
          exact absurd hf (by simp)

theorem retryLoop_cursor (photo : Photo) (rl tw : Nat) :
    ∀ fuel attempt st, (retryLoop photo rl tw st attempt fuel).state.cursor = st.cursor
      ∨ (retryLoop photo rl tw st attempt fuel).state.cursor = some photo.filename := by
  intro fuel
  induction fuel with
  | zero => intro attempt st; exact Or.inl rfl
  | succ f ih =>
    intro attempt st
    unfold retryLoop
    cases hai : attemptItem st photo (decide (attempt < photo.transientFailures)) rl tw with
    | ok r =>
      exact attemptItem_ok_cursor st photo _ rl tw r hai
    | error f1 =>
      dsimp only
      by_cases hf : f > 0
      · rw [if_pos hf]
        exact ih (attempt + 1) ⟨f1, st.cursor, st.requests⟩
      · rw [if_neg hf]
        exact Or.inl rfl

theorem retryLoop_untouched (photo : Photo) (rl tw : Nat) (q : String)
    (h1 : q ≠ finalPath photo) (h2 : q ≠ tempPath photo) :
    ∀ fuel attempt st, fsLookup (retryLoop photo rl tw st attempt fuel).state.fs q
      = fsLookup st.fs q := by
  intro fuel
  induction fuel with
  | zero => intro attempt st; rfl
  | succ f ih =>
    intro attempt st
    unfold retryLoop
    cases hai : attemptItem st photo (decide (attempt < photo.transientFailures)) rl tw with
    | ok r =>
      exact (attemptItem_untouched st photo _ rl tw q h1 h2).1 r hai
    | error f1 =>
      have hf1 : fsLookup f1 q = fsLookup st.fs q :=
        (attemptItem_untouched st photo _ rl tw q h1 h2).2 f1 hai
      dsimp only
      by_cases hf : f > 0
      · rw [if_pos hf]
        rw [ih (attempt + 1) ⟨f1, st.cursor, st.requests⟩]
        exact hf1
      · rw [if_neg hf]
        exact hf1

theorem processItem_final_content (st : EngineState) (photo : Photo) (rl tw : Nat)
    (h0 : photo.transientFailures = 0) :
    contentAt (processItem st photo rl tw).state.fs (finalPath photo) = some photo.content := by
  cases hex : fsLookup st.fs (finalPath photo) with
  | none =>
    rw [processItem_of_first_ok st photo rl tw _ h0 (attemptItem_fresh st photo rl tw hex)]
    show contentAt (commitTail
      ⟨fsSet st.fs (finalPath photo) ⟨photo.content, 0, 0⟩, st.cursor, st.requests⟩
      photo rl tw).state.fs (finalPath photo) = _
    rw [commitTail_fs, contentAt_reset_file_timestamp, contentAt_fsSet_self]
  | some f0 =>
    by_cases heq : f0.content = photo.content
    · rw [processItem_of_first_ok st photo rl tw _ h0
        (attemptItem_equal st photo rl tw f0 hex heq)]
      show contentAt (osRemove
        (reset_file_timestamp (fsSet st.fs (tempPath photo) ⟨photo.content, 0, 0⟩)
          (finalPath photo) photo.added_date 0)
        (tempPath photo)) (finalPath photo) = _
      rw [contentAt_osRemove_ne _ _ _ (finalPath_ne_tempPath_self photo),
        contentAt_reset_file_timestamp,
        contentAt_fsSet_ne _ _ _ _ (finalPath_ne_tempPath_self photo)]
      unfold contentAt
      rw [hex]
      simp [heq]
    · rw [processItem_of_first_ok st photo rl tw _ h0
        (attemptItem_differs st photo rl tw f0 hex heq)]
      show contentAt (commitTail
        ⟨osRename (fsSet st.fs (tempPath photo) ⟨photo.content, 0, 0⟩)
          (tempPath photo) (finalPath photo), st.cursor, st.requests⟩
        photo rl tw).state.fs (finalPath photo) = _
      rw [commitTail_fs, contentAt_reset_file_timestamp]
      exact contentAt_osRename_dst _ _ _ ⟨photo.content, 0, 0⟩ (fsLookup_fsSet_self _ _ _)

theorem processItem_equal_noop (st : EngineState) (photo : Photo) (rl tw : Nat) (f0 : FileData)
    (h0 : photo.transientFailures = 0)
    (hex : fsLookup st.fs (finalPath photo) = some f0)
    (heq : f0.content = photo.content) :
    (processItem st photo rl tw).state.cursor = st.cursor
    ∧ (processItem st photo rl tw).state.requests = st.requests
    ∧ ∀ q, q ≠ tempPath photo →
        contentAt (processItem st photo rl tw).state.fs q = contentAt st.fs q := by
  rw [processItem_of_first_ok st photo rl tw _ h0 (attemptItem_equal st photo rl tw f0 hex heq)]
  refine ⟨rfl, rfl, ?_⟩
  intro q hq
  show contentAt (osRemove
    (reset_file_timestamp (fsSet st.fs (tempPath photo) ⟨photo.content, 0, 0⟩)
      (finalPath photo) photo.added_date 0)
    (tempPath photo)) q = _
  rw [contentAt_osRemove_ne _ _ _ hq, contentAt_reset_file_timestamp,
    contentAt_fsSet_ne _ _ _ _ hq]

theorem syncLoop_processed (last : Option String) :
    ∀ (l : List Photo) (st : EngineState),
      (syncLoop last st false l).2 = l.map Photo.filename := by
  intro l
  induction l with
  | nil => intro st; rfl
  | cons x rest ih =>
    intro st
    show ((syncLoop last (processItem st x RATE_LIMIT TIME_WINDOW).state false rest).1,
      x.filename :: (syncLoop last (processItem st x RATE_LIMIT TIME_WINDOW).state false rest).2).2
        = (x :: rest).map Photo.filename
    rw [List.map_cons]
    show x.filename :: (syncLoop last (processItem st x RATE_LIMIT TIME_WINDOW).state false rest).2
      = x.filename :: rest.map Photo.filename
    rw [ih (processItem st x RATE_LIMIT TIME_WINDOW).state]

theorem syncLoop_untouched (last : Option String) (q : String) :
    ∀ (l : List Photo) (st : EngineState),
      (∀ p ∈ l, q ≠ finalPath p ∧ q ≠ tempPath p) →
      fsLookup (syncLoop last st false l).1.fs q = fsLookup st.fs q := by
  intro l
  induction l with
  | nil => intro st _; rfl
  | cons x rest ih =>
    intro st hq
    have hx := hq x (List.mem_cons_self x rest)
    show fsLookup (syncLoop last (processItem st x RATE_LIMIT TIME_WINDOW).state false rest).1.fs q
      = fsLookup st.fs q
    rw [ih (processItem st x RATE_LIMIT TIME_WINDOW).state
      (fun p hp => hq p (List.mem_cons_of_mem x hp))]
    exact retryLoop_untouched x RATE_LIMIT TIME_WINDOW q hx.1 hx.2 MAX_RETRIES 0 st

theorem syncLoop_cursor_cases (last : Option String) :
    ∀ (l : List Photo) (st : EngineState),
      (syncLoop last st false l).1.cursor = st.cursor
      ∨ ∃ p ∈ l, (syncLoop last st false l).1.cursor = some p.filename := by
  intro l
  induction l with
  | nil => intro st; exact Or.inl rfl
  | cons x rest ih =>
    intro st
    have hstep : (syncLoop last st false (x :: rest)).1
        = (syncLoop last (processItem st x RATE_LIMIT TIME_WINDOW).state false rest).1 := rfl
    rw [hstep]
    rcases ih (processItem st x RATE_LIMIT TIME_WINDOW).state with h | ⟨p, hp, h⟩
    · rcases retryLoop_cursor x RATE_LIMIT TIME_WINDOW MAX_RETRIES 0 st with h2 | h2
      · exact Or.inl (h.trans h2)
      · exact Or.inr ⟨x, List.mem_cons_self x rest, h.trans h2⟩
    · exact Or.inr ⟨p, List.mem_cons_of_mem x hp, h⟩

theorem syncLoop_skip (s : String) :
    ∀ (l : List Photo) (st : EngineState),
      syncLoop (some s) st true l = syncLoop (some s) st false (dropThroughMatch s l) := by
  intro l
  induction l with
  | nil => intro st; rfl
  | cons x rest ih =>
    intro st
    by_cases h : x.filename = s
    · show (if some s = some x.filename then syncLoop (some s) st false rest
        else syncLoop (some s) st true rest) = _
      rw [if_pos (by rw [h])]
      unfold dropThroughMatch
      rw [if_pos h]
    · show (if some s = some x.filename then syncLoop (some s) st false rest
        else syncLoop (some s) st true rest) = _
      have h2 : ¬ (some s = some x.filename) := by
        intro hh
        injection hh with hh2
        exact h hh2.symm
      rw [if_neg h2]
      unfold dropThroughMatch
      rw [if_neg h]
      exact ih st

theorem dropThroughMatch_sublist (s : String) :
    ∀ l : List Photo, List.Sublist (dropThroughMatch s l) l := by
  intro l
  induction l with
  | nil => exact List.Sublist.refl []
  | cons x rest ih =>
    unfold dropThroughMatch
    by_cases h : x.filename = s
    · rw [if_pos h]
      exact List.Sublist.cons x (List.Sublist.refl rest)
    · rw [if_neg h]
      exact List.Sublist.cons x ih

theorem dropThroughMatch_subset (s : String) (l : List Photo) :
    ∀ p ∈ dropThroughMatch s l, p ∈ l :=
  fun _ hp => (dropThroughMatch_sublist s l).subset hp

theorem dropThroughMatch_append (s : String) :
    ∀ (l1 l2 : List Photo), s ∉ l1.map Photo.filename →
      dropThroughMatch s (l1 ++ l2) = dropThroughMatch s l2 := by
  intro l1
  induction l1 with
  | nil => intro l2 _; rfl
  | cons x rest ih =>
    intro l2 hs
    have hx : ¬ (x.filename = s) := by
      intro hh
      exact hs (by rw [List.map_cons, hh]; exact List.mem_cons_self s _)
    show dropThroughMatch s (x :: (rest ++ l2)) = _
    unfold dropThroughMatch
    rw [if_neg hx]
    rw [ih l2 (fun hh => hs (List.mem_cons_of_mem _ hh))]
    cases l2 <;> rfl

theorem dropThroughMatch_exists_prefix (s : String) :
    ∀ l : List Photo, ∃ l1, l = l1 ++ dropThroughMatch s l := by
  intro l
  induction l with
  | nil => exact ⟨[], rfl⟩
  | cons x rest ih =>
    by_cases h : x.filename = s
    · refine ⟨[x], ?_⟩
      unfold dropThroughMatch
      rw [if_pos h]
      rfl
    · obtain ⟨l1, hl⟩ := ih
      refine ⟨x :: l1, ?_⟩
      unfold dropThroughMatch
      rw [if_neg h, List.cons_append]
      exact congrArg (List.cons x) hl

theorem afterCursor_sublist (c : Option String) (l : List Photo) :
    List.Sublist (afterCursor c l) l := by
  cases c with
  | none => exact List.Sublist.refl l
  | some s => exact dropThroughMatch_sublist s l

theorem afterCursor_exists_prefix (c : Option String) (l : List Photo) :
    ∃ l1, l = l1 ++ afterCursor c l := by
  cases c with
  | none => exact ⟨[], rfl⟩
  | some s => exact dropThroughMatch_exists_prefix s l

theorem runEngine_eq (st : EngineState) (photos : List Photo) :
    runEngine st photos = syncLoop st.cursor st false (afterCursor st.cursor photos) := by
  unfold runEngine
  cases hc : st.cursor with
  | none => rfl
  | some s =>
    show syncLoop (some s) st true photos = syncLoop (some s) st false (dropThroughMatch s photos)
    exact syncLoop_skip s photos st

theorem contentAt_congr {fs fs2 : FS} {q : String}
    (h : fsLookup fs q = fsLookup fs2 q) : contentAt fs q = contentAt fs2 q := by
  unfold contentAt
  rw [h]

theorem syncLoop_content_all (last : Option String) :
    ∀ (l : List Photo) (st : EngineState),
      (∀ p ∈ l, p.transientFailures = 0) →
      (l.map Photo.filename).Nodup →
      (∀ p ∈ l, ∀ p2 ∈ l, p.filename ≠ p2.filename ++ ".temp") →
      ∀ p ∈ l, contentAt (syncLoop last st false l).1.fs (finalPath p) = some p.content := by
  intro l
  induction l with
  | nil => intro st _ _ _ p hp; exact absurd hp (List.not_mem_nil p)
  | cons x rest ih =>
    intro st hfail hnodup hnotemp p hp
    have hn2 : x.filename ∉ rest.map Photo.filename ∧ (rest.map Photo.filename).Nodup := by
      rw [List.map_cons] at hnodup
      exact List.nodup_cons.mp hnodup
    have hstep : (syncLoop last st false (x :: rest)).1
        = (syncLoop last (processItem st x RATE_LIMIT TIME_WINDOW).state false rest).1 := rfl
    rw [hstep]
    rcases List.mem_cons.mp hp with hpx | hpr
    · subst hpx
      have hxcontent : contentAt (processItem st p RATE_LIMIT TIME_WINDOW).state.fs (finalPath p)
          = some p.content :=
        processItem_final_content st p RATE_LIMIT TIME_WINDOW (hfail p hp)
      have hcond : ∀ p2 ∈ rest, finalPath p ≠ finalPath p2 ∧ finalPath p ≠ tempPath p2 := by
        intro p2 hp2
        constructor
        · apply finalPath_ne
          intro hh
          exact hn2.1 (hh ▸ List.mem_map_of_mem Photo.filename hp2)
        · exact finalPath_ne_tempPath (hnotemp p hp p2 (List.mem_cons_of_mem _ hp2))
      have huntouched := syncLoop_untouched last (finalPath p) rest
        (processItem st p RATE_LIMIT TIME_WINDOW).state hcond
      exact (contentAt_congr huntouched).trans hxcontent
    · exact ih (processItem st x RATE_LIMIT TIME_WINDOW).state
        (fun p2 h2 => hfail p2 (List.mem_cons_of_mem _ h2))
        hn2.2
        (fun p2 h2 p3 h3 => hnotemp p2 (List.mem_cons_of_mem _ h2) p3 (List.mem_cons_of_mem _ h3))
        p hpr

theorem syncLoop_allequal (last : Option String) :
    ∀ (l : List Photo) (st : EngineState),
      (∀ p ∈ l, p.transientFailures = 0) →
      (∀ p ∈ l, contentAt st.fs (finalPath p) = some p.content) →
      (∀ p ∈ l, ∀ p2 ∈ l, p.filename ≠ p2.filename ++ ".temp") →
      (syncLoop last st false l).1.cursor = st.cursor
      ∧ ∀ q, (∀ p ∈ l, q ≠ tempPath p) →
          contentAt (syncLoop last st false l).1.fs q = contentAt st.fs q := by
  intro l
  induction l with
  | nil => intro st _ _ _; exact ⟨rfl, fun q _ => rfl⟩
  | cons x rest ih =>
    intro st hfail hmatch hnotemp
    have hx : ∃ f0, fsLookup st.fs (finalPath x) = some f0 ∧ f0.content = x.content := by
      have h := hmatch x (List.mem_cons_self x rest)
      unfold contentAt at h
      cases hl : fsLookup st.fs (finalPath x) with
      | none =>
        rw [hl] at h
        simp at h
      | some f0 =>
        rw [hl] at h
        simp at h
        exact ⟨f0, rfl, h⟩
    obtain ⟨f0, hex, heq⟩ := hx
    have hnoop := processItem_equal_noop st x RATE_LIMIT TIME_WINDOW f0
      (hfail x (List.mem_cons_self x rest)) hex heq
    have hmatch1 : ∀ p ∈ rest,
        contentAt (processItem st x RATE_LIMIT TIME_WINDOW).state.fs (finalPath p)
          = some p.content := by
      intro p hp
      rw [hnoop.2.2 (finalPath p) (finalPath_ne_tempPath
        (hnotemp p (List.mem_cons_of_mem x hp) x (List.mem_cons_self x rest)))]
      exact hmatch p (List.mem_cons_of_mem x hp)
    have hrest := ih (processItem st x RATE_LIMIT TIME_WINDOW).state
      (fun p hp => hfail p (List.mem_cons_of_mem _ hp)) hmatch1
      (fun p hp p2 hp2 => hnotemp p (List.mem_cons_of_mem _ hp) p2 (List.mem_cons_of_mem _ hp2))
    have hstep : (syncLoop last st false (x :: rest)).1
        = (syncLoop last (processItem st x RATE_LIMIT TIME_WINDOW).state false rest).1 := rfl
    constructor
    · rw [hstep, hrest.1, hnoop.1]
    · intro q hq
      rw [hstep, hrest.2 q (fun p hp => hq p (List.mem_cons_of_mem _ hp)),
        hnoop.2.2 q (hq x (List.mem_cons_self x rest))]

/-- C3: with the stored cursor equal to the identifier of item K of the
listing (the listing written as pre ++ x :: post with x the K-th item,
filenames unique and no filename aliasing another's staging path), a
fresh engine run processes exactly the items after x and leaves the
files of items 1..K (pre and x) untouched — content and timestamps;
with no stored cursor, every item of the listing is processed. -/
theorem c3_resume_correctness (pre post : List Photo) (x : Photo)
    (hnodup : ((pre ++ x :: post).map Photo.filename).Nodup)
    (hnotemp : ∀ p ∈ pre ++ x :: post, ∀ p2 ∈ pre ++ x :: post,
        p.filename ≠ p2.filename ++ ".temp")
    (st : EngineState) (hc : st.cursor = some x.filename) :
    (runEngine st (pre ++ x :: post)).2 = post.map Photo.filename
    ∧ (∀ p, p ∈ pre ∨ p = x →
        fsLookup (runEngine st (pre ++ x :: post)).1.fs (finalPath p)
          = fsLookup st.fs (finalPath p))
    ∧ (∀ st2 : EngineState, st2.cursor = none →
        (runEngine st2 (pre ++ x :: post)).2 = (pre ++ x :: post).map Photo.filename) := by
  have hnodup2 : (pre.map Photo.filename ++ (x :: post).map Photo.filename).Nodup := by
    rw [← List.map_append]
    exact hnodup
  obtain ⟨hndpre, hndpost, hdisj⟩ := List.nodup_append.mp hnodup2
  have hnotm : x.filename ∉ pre.map Photo.filename := by
    intro hmem
    exact hdisj hmem (by rw [List.map_cons]; exact List.mem_cons_self _ _)
  have hdrop : dropThroughMatch x.filename (pre ++ x :: post) = post := by
    rw [dropThroughMatch_append x.filename pre (x :: post) hnotm]
    unfold dropThroughMatch
    rw [if_pos rfl]
  have hre : runEngine st (pre ++ x :: post) = syncLoop (some x.filename) st false post := by
    rw [runEngine_eq, hc]
    show syncLoop (some x.filename) st false
      (dropThroughMatch x.filename (pre ++ x :: post)) = _
    rw [hdrop]
  refine ⟨?_, ?_, ?_⟩
  · rw [hre, syncLoop_processed]
  · intro p hp
    rw [hre]
    apply syncLoop_untouched
    intro p2 hp2
    have hpfull : p ∈ pre ++ x :: post := by
      rcases hp with h | h
      · exact List.mem_append_left _ h
      · exact h ▸ List.mem_append_right _ (List.mem_cons_self _ _)
    have hp2full : p2 ∈ pre ++ x :: post :=
      List.mem_append_right _ (List.mem_cons_of_mem _ hp2)
    constructor
    · apply finalPath_ne
      intro hh
      rcases hp with h | h
      · exact hdisj (List.mem_map_of_mem Photo.filename h)
          (hh ▸ List.mem_map_of_mem Photo.filename (List.mem_cons_of_mem x hp2))
      · subst h
        have hx2 : p.filename ∉ post.map Photo.filename := by
          have h3 : (p.filename :: post.map Photo.filename).Nodup := by
            rw [List.map_cons] at hndpost
            exact hndpost
          exact (List.nodup_cons.mp h3).1
        exact hx2 (hh ▸ List.mem_map_of_mem Photo.filename hp2)
    · exact finalPath_ne_tempPath (hnotemp p hpfull p2 hp2full)
  · intro st2 hc2
    rw [runEngine_eq, hc2]
    exact syncLoop_processed none (pre ++ x :: post) st2

/-- C3 witness: the theorem at a concrete three-item listing with the
cursor at the second item. -/
theorem c3_witness :
    (runEngine ⟨[("downloaded_files/A", ⟨[1], 0, 0⟩)], some "B", 0⟩
        [⟨"A", [1], ⟨0, none⟩, 0, 0⟩, ⟨"B", [2], ⟨0, none⟩, 0, 0⟩,
          ⟨"C", [3], ⟨0, none⟩, 0, 0⟩]).2 = ["C"]
    ∧ fsLookup (runEngine ⟨[("downloaded_files/A", ⟨[1], 0, 0⟩)], some "B", 0⟩
        [⟨"A", [1], ⟨0, none⟩, 0, 0⟩, ⟨"B", [2], ⟨0, none⟩, 0, 0⟩,
          ⟨"C", [3], ⟨0, none⟩, 0, 0⟩]).1.fs
        (finalPath ⟨"A", [1], ⟨0, none⟩, 0, 0⟩)
      = fsLookup [("downloaded_files/A", ⟨[1], 0, 0⟩)]
          (finalPath ⟨"A", [1], ⟨0, none⟩, 0, 0⟩)
    ∧ (runEngine ⟨[], none, 0⟩
        [⟨"A", [1], ⟨0, none⟩, 0, 0⟩, ⟨"B", [2], ⟨0, none⟩, 0, 0⟩,
          ⟨"C", [3], ⟨0, none⟩, 0, 0⟩]).2 = ["A", "B", "C"] := by
  have h := c3_resume_correctness [⟨"A", [1], ⟨0, none⟩, 0, 0⟩]
    [⟨"C", [3], ⟨0, none⟩, 0, 0⟩] ⟨"B", [2], ⟨0, none⟩, 0, 0⟩
    (by decide) (by decide)
    ⟨[("downloaded_files/A", ⟨[1], 0, 0⟩)], some "B", 0⟩ rfl
  exact ⟨h.1, h.2.1 ⟨"A", [1], ⟨0, none⟩, 0, 0⟩ (Or.inl (by decide)),
    h.2.2 ⟨[], none, 0⟩ rfl⟩

/-- C8: over an unchanged, reliable remote listing (no transient
failures, unique filenames, no staging-path aliasing), the second of two
consecutive engine runs changes no final file's byte content and leaves
the persisted cursor exactly where the first run left it: every item the
second run reaches already matches remotely, so each takes the equal
branch, which touches only timestamps and its own staging file and never
saves the cursor. -/
theorem c8_idempotent (photos : List Photo)
    (hfail : ∀ p ∈ photos, p.transientFailures = 0)
    (hnodup : (photos.map Photo.filename).Nodup)
    (hnotemp : ∀ p ∈ photos, ∀ p2 ∈ photos, p.filename ≠ p2.filename ++ ".temp")
    (st0 : EngineState) :
    (∀ p ∈ photos,
        contentAt (runEngine (runEngine st0 photos).1 photos).1.fs (finalPath p)
          = contentAt (runEngine st0 photos).1.fs (finalPath p))
    ∧ (runEngine (runEngine st0 photos).1 photos).1.cursor
        = (runEngine st0 photos).1.cursor := by
  have hsub1 : ∀ p ∈ afterCursor st0.cursor photos, p ∈ photos :=
    fun p hp => (afterCursor_sublist st0.cursor photos).subset hp
  have hnodup1 : ((afterCursor st0.cursor photos).map Photo.filename).Nodup :=
    List.Nodup.sublist (List.Sublist.map Photo.filename (afterCursor_sublist st0.cursor photos))
      hnodup
  have hL1 : ∀ p ∈ afterCursor st0.cursor photos,
      contentAt (runEngine st0 photos).1.fs (finalPath p) = some p.content := by
    intro p hp
    rw [runEngine_eq]
    exact syncLoop_content_all st0.cursor (afterCursor st0.cursor photos) st0
      (fun p2 h2 => hfail p2 (hsub1 p2 h2)) hnodup1
      (fun p2 h2 p3 h3 => hnotemp p2 (hsub1 p2 h2) p3 (hsub1 p3 h3)) p hp
  have hcc : (runEngine st0 photos).1.cursor = st0.cursor
      ∨ ∃ y ∈ afterCursor st0.cursor photos,
          (runEngine st0 photos).1.cursor = some y.filename := by
    rw [runEngine_eq]
    exact syncLoop_cursor_cases st0.cursor (afterCursor st0.cursor photos) st0
  have hsub2 : ∀ p ∈ afterCursor (runEngine st0 photos).1.cursor photos,
      p ∈ afterCursor st0.cursor photos := by
    rcases hcc with h | ⟨y, hy, h⟩
    · rw [h]
      exact fun p hp => hp
    · rw [h]
      intro p hp
      obtain ⟨preL, hpre⟩ := afterCursor_exists_prefix st0.cursor photos
      have hdisj : List.Disjoint (preL.map Photo.filename)
          ((afterCursor st0.cursor photos).map Photo.filename) := by
        have hn := hnodup
        rw [hpre, List.map_append] at hn
        exact (List.nodup_append.mp hn).2.2
      have hnotmem : y.filename ∉ preL.map Photo.filename := by
        intro hmem
        exact hdisj hmem (List.mem_map_of_mem Photo.filename hy)
      have hp2 : p ∈ dropThroughMatch y.filename photos := hp
      rw [hpre] at hp2
      rw [dropThroughMatch_append y.filename preL (afterCursor st0.cursor photos) hnotmem] at hp2
      exact dropThroughMatch_subset _ _ p hp2
  have hall := syncLoop_allequal (runEngine st0 photos).1.cursor
    (afterCursor (runEngine st0 photos).1.cursor photos) (runEngine st0 photos).1
    (fun p hp => hfail p (hsub1 p (hsub2 p hp)))
    (fun p hp => hL1 p (hsub2 p hp))
    (fun p hp p2 hp2 => hnotemp p (hsub1 p (hsub2 p hp)) p2 (hsub1 p2 (hsub2 p2 hp2)))
  have hre2 := runEngine_eq (runEngine st0 photos).1 photos
  constructor
  · intro p hp
    rw [hre2]
    exact hall.2 (finalPath p)
      (fun p2 hp2 => finalPath_ne_tempPath (hnotemp p hp p2 (hsub1 p2 (hsub2 p2 hp2))))
  · rw [hre2]
    exact hall.1

/-- C8 witness: the theorem at a concrete two-item listing starting from
an empty local store; the first run downloads both items, the second run
modifies nothing and keeps the cursor. -/
theorem c8_witness :
    contentAt (runEngine (runEngine ⟨[], none, 0⟩
        [⟨"A", [1], ⟨0, none⟩, 0, 0⟩, ⟨"B", [2], ⟨5, none⟩, 0, 0⟩]).1
        [⟨"A", [1], ⟨0, none⟩, 0, 0⟩, ⟨"B", [2], ⟨5, none⟩, 0, 0⟩]).1.fs
        (finalPath ⟨"A", [1], ⟨0, none⟩, 0, 0⟩)
      = contentAt (runEngine ⟨[], none, 0⟩
        [⟨"A", [1], ⟨0, none⟩, 0, 0⟩, ⟨"B", [2], ⟨5, none⟩, 0, 0⟩]).1.fs
        (finalPath ⟨"A", [1], ⟨0, none⟩, 0, 0⟩)
    ∧ (runEngine (runEngine ⟨[], none, 0⟩
        [⟨"A", [1], ⟨0, none⟩, 0, 0⟩, ⟨"B", [2], ⟨5, none⟩, 0, 0⟩]).1
        [⟨"A", [1], ⟨0, none⟩, 0, 0⟩, ⟨"B", [2], ⟨5, none⟩, 0, 0⟩]).1.cursor
      = (runEngine ⟨[], none, 0⟩
        [⟨"A", [1], ⟨0, none⟩, 0, 0⟩, ⟨"B", [2], ⟨5, none⟩, 0, 0⟩]).1.cursor := by
  have h := c8_idempotent
    [⟨"A", [1], ⟨0, none⟩, 0, 0⟩, ⟨"B", [2], ⟨5, none⟩, 0, 0⟩]
    (by decide) (by decide) (by decide) ⟨[], none, 0⟩
  exact ⟨h.1 ⟨"A", [1], ⟨0, none⟩, 0, 0⟩ (by decide), h.2⟩
